import Mathlib

/-!
Verification development for the gmailplayground repository
(gmail_api.py, gmail_playground.py, utils.py).

The Python code is shallowly embedded: loosely-typed Gmail API response
records become the inductive type PyVal (dictionaries are ordered
association lists, matching Python dict insertion order and unique keys),
mutation of the pending missing-body list is turned into explicit
writer-style return values, and code that can raise returns Option
(Option.none models an uncaught exception at that point).
External collaborators (the Gmail HTTP service, the base64 decoder from
the external utils module, the regex engine from pythoncommons) are
parameters of the embedded functions.
-/

set_option maxHeartbeats 1000000
set_option linter.unusedVariables false

/-- A loosely-typed Python value as it appears in Gmail API responses. -/
inductive PyVal : Type where
  | pnone : PyVal
  | pstr : String → PyVal
  | pint : Int → PyVal
  | plist : List PyVal → PyVal
  | pdict : List (String × PyVal) → PyVal

/-- Python truthiness of a PyVal: None, the empty string, zero, the empty
list and the empty dict are falsy, everything else is truthy. -/
def truthy : PyVal → Bool
  | PyVal.pnone => false
  | PyVal.pstr s => !s.data.isEmpty
  | PyVal.pint n => n != 0
  | PyVal.plist xs => !xs.isEmpty
  | PyVal.pdict es => !es.isEmpty

/-- Python dict lookup, modelled on an association list: the combination of
the membership test and the subscript access. Python dict keys are unique,
so first-match lookup is exact. -/
def alookup (k : String) : List (String × α) → Option α
  | [] => Option.none
  | (k2, v) :: rest => if k2 = k then some v else alookup k rest

/-- Embeds GmailWrapper._get_field (gmail_api.py lines 269-277) for field
names coming from the Enum constants (all claims concern that branch; for
a non-Enum field the Python function falls through and returns None).
The two steps of the source are kept: an absent key falls back to the
default, then a falsy value is replaced by the default as well. -/
def get_field (gmail_api_obj : List (String × PyVal)) (fieldName : String)
    (default_val : PyVal) : PyVal :=
  let ret := match alookup fieldName gmail_api_obj with
    | some v => v
    | Option.none => default_val
  if truthy ret then ret else default_val

/-- Embeds the dataclass MessagePartBody (gmail_api.py lines 65-70).
Field values keep the loose PyVal typing they receive from _get_field. -/
structure MessagePartBody where
  data : PyVal
  size : PyVal
  attachmentId : PyVal
  encoding_error : Bool

/-- Embeds the dataclass MessagePartBodyWithMissingBodyData
(gmail_api.py lines 72-76): one pending entry of the missing-body list. -/
structure MessagePartBodyWithMissingBodyData where
  message_id : PyVal
  attachment_id : PyVal
  message_part_body : MessagePartBody

/-- Embeds the dataclass Header (gmail_api.py lines 78-81). -/
structure Header where
  name : PyVal
  value : PyVal

/-- Embeds the dataclass MessagePart (gmail_api.py lines 84-90): the
recursive MIME-like part tree. -/
structure MessagePart where
  id : PyVal
  mimeType : PyVal
  headers : List Header
  body : MessagePartBody
  parts : List MessagePart

/-- Embeds the dataclass Message (gmail_api.py lines 93-99). The datetime
value is modelled as microseconds since the epoch (datetime resolution),
always non-negative in the modelled range. -/
structure Message where
  id : PyVal
  threadId : PyVal
  date : Nat
  snippet : PyVal
  payload : MessagePart

/-- Embeds the dataclass Thread (gmail_api.py lines 102-106). -/
structure Thread where
  id : PyVal
  subject : PyVal
  messages : List Message

/-- Embeds the Progress counters (gmail_api.py lines 109-133); the
item_type field is log-output only and is omitted. -/
structure Progress where
  requests_count : Nat
  all_items_count : Nat
  processed_items : Nat
  new_items_with_last_request : Int

/-- Progress.__init__ counter values. -/
def Progress.init : Progress :=
  Progress.mk 0 0 0 (-1)

/-- Embeds Progress.incr_requests (gmail_api.py lines 120-121). -/
def Progress.incr_requests (p : Progress) : Progress :=
  { p with requests_count := p.requests_count + 1 }

/-- Embeds Progress.register_new_items (gmail_api.py lines 123-127);
printing is log-output only. -/
def Progress.register_new_items (p : Progress) (number_of_new_items : Nat) : Progress :=
  { p with all_items_count := p.all_items_count + number_of_new_items,
           new_items_with_last_request := number_of_new_items }

/-- Embeds Progress.incr_processed_items (gmail_api.py lines 129-130). -/
def Progress.incr_processed_items (p : Progress) : Progress :=
  { p with processed_items := p.processed_items + 1 }

/-- Embeds GmailWrapper._parse_headers (gmail_api.py lines 218-224).
The headers field is read through _get_field with default None; iterating
a non-list (in particular None, which a part with an absent or empty
header list produces) raises in Python and is modelled as Option.none.
Each raw header entry must itself be a dict for _get_field to work. -/
def parse_headers (message_part : List (String × PyVal)) : Option (List Header) :=
  match get_field message_part "headers" PyVal.pnone with
  | PyVal.plist headers_list =>
      headers_list.mapM (fun header_dict =>
        match header_dict with
        | PyVal.pdict h =>
            some (Header.mk (get_field h "name" PyVal.pnone) (get_field h "value" PyVal.pnone))
        | _ => Option.none)
  | _ => Option.none

/-- Embeds GmailWrapper._parse_message_part_body_obj (gmail_api.py lines
226-248). The external base64url decoder (Decoder.decode_base64 from the
external utils module) is the parameter dec; dec returning Option.none
models the decoder raising, which the source catches. On a falsy data
field the decoder is not called and the decoded string is empty; on a
caught decode failure the original un-decoded data is substituted and the
encoding_error flag is set. When the resulting body string is falsy, one
entry is appended to the missing-body list (returned here as the second
component instead of mutating ambient state). A non-dict raw body (for
example None after falsy-collapse of an empty body dict) raises in Python
and is modelled as Option.none. -/
def parse_message_part_body_obj (dec : PyVal → Option String) (messagepart_body : PyVal)
    (message_id : PyVal) : Option (MessagePartBody × List MessagePartBodyWithMissingBodyData) :=
  match messagepart_body with
  | PyVal.pdict entries =>
    let messagepart_body_data := get_field entries "data" PyVal.pnone
    let decoded : PyVal × Bool :=
      if truthy messagepart_body_data then
        match dec messagepart_body_data with
        | some s => (PyVal.pstr s, false)
        | Option.none => (messagepart_body_data, true)
      else (PyVal.pstr "", false)
    let message_part_body_obj : MessagePartBody :=
      { data := decoded.1
        size := get_field entries "size" PyVal.pnone
        attachmentId := get_field entries "attachmentId" PyVal.pnone
        encoding_error := decoded.2 }
    let pending :=
      if truthy decoded.1 then []
      else [MessagePartBodyWithMissingBodyData.mk message_id
              message_part_body_obj.attachmentId message_part_body_obj]
    some (message_part_body_obj, pending)
  | _ => Option.none

theorem alookup_sizeOf {l : List (String × PyVal)} {k : String} {v : PyVal}
    (h : alookup k l = some v) : sizeOf v < sizeOf (PyVal.pdict l) := by
  induction l with
  | nil => simp [alookup] at h
  | cons hd tl ih =>
    obtain ⟨k2, v2⟩ := hd
    by_cases hk : k2 = k
    · simp [alookup, hk] at h
      subst h
      simp only [PyVal.pdict.sizeOf_spec, List.cons.sizeOf_spec, Prod.mk.sizeOf_spec]
      omega
    · simp [alookup, hk] at h
      have := ih h
      simp only [PyVal.pdict.sizeOf_spec, List.cons.sizeOf_spec] at *
      omega

theorem get_field_sizeOf {l : List (String × PyVal)} {k : String} {d v : PyVal}
    (h : get_field l k d = v) : v = d ∨ sizeOf v < sizeOf (PyVal.pdict l) := by
  unfold get_field at h
  cases hl : alookup k l with
  | none => simp [hl] at h; exact Or.inl h.symm
  | some w =>
    simp [hl] at h
    split at h
    · right; subst h; exact alookup_sizeOf hl
    · exact Or.inl h.symm

theorem get_field_parts_sizeOf {entries : List (String × PyVal)} {message_parts : List PyVal}
    (hps : get_field entries "parts" (PyVal.plist []) = PyVal.plist message_parts) :
    sizeOf message_parts < sizeOf (PyVal.pdict entries) := by
  rcases get_field_sizeOf hps with h | h
  · injection h with h2
    subst h2
    simp only [PyVal.pdict.sizeOf_spec, List.nil.sizeOf_spec]
    have h1 : 1 ≤ sizeOf entries := by
      cases entries with
      | nil => simp
      | cons a l => simp only [List.cons.sizeOf_spec]; omega
    omega
  · simp only [PyVal.plist.sizeOf_spec] at h
    omega

mutual

/-- Embeds GmailWrapper.parse_message_part (gmail_api.py lines 206-216).
The raw part must be a dict (Python raises inside _get_field otherwise,
modelled as Option.none); the child parts field is read with default [],
headers and body are parsed, and each child entry is parsed recursively.
The pending missing-body entries produced by this subtree are returned as
the second component, parent body entry first, then the children in
order, matching the mutation order of the source. -/
def parse_message_part (dec : PyVal → Option String) (message_part : PyVal) (message_id : PyVal) :
    Option (MessagePart × List MessagePartBodyWithMissingBodyData) :=
  match message_part with
  | PyVal.pdict entries =>
    match hps : get_field entries "parts" (PyVal.plist []) with
    | PyVal.plist message_parts =>
      match parse_headers entries,
            parse_message_part_body_obj dec (get_field entries "body" PyVal.pnone) message_id with
      | some headers, some bodyres =>
        match parse_message_part_list dec message_parts message_id with
        | some children =>
          some (MessagePart.mk (get_field entries "partId" PyVal.pnone)
                  (get_field entries "mimeType" PyVal.pnone)
                  headers bodyres.1 (children.map Prod.fst),
                bodyres.2 ++ (children.map Prod.snd).flatten)
        | Option.none => Option.none
      | _, _ => Option.none
    | _ => Option.none
  | _ => Option.none
termination_by sizeOf message_part
decreasing_by
  exact get_field_parts_sizeOf hps

/-- Embeds the list comprehension of gmail_api.py line 214: parse each
child entry in order; a failure of any child propagates (the Python
exception aborts the whole comprehension). -/
def parse_message_part_list (dec : PyVal → Option String) (parts : List PyVal) (message_id : PyVal) :
    Option (List (MessagePart × List MessagePartBodyWithMissingBodyData)) :=
  match parts with
  | [] => some []
  | p :: rest =>
    match parse_message_part dec p message_id, parse_message_part_list dec rest message_id with
    | some r, some rs => some (r :: rs)
    | _, _ => Option.none
termination_by sizeOf parts
decreasing_by
  · simp only [List.cons.sizeOf_spec]; omega
  · simp only [List.cons.sizeOf_spec]; omega

end

/-- Models Python int() applied to a Gmail API field value: an int passes
through, a string of decimal digits is parsed. Other int() inputs (signs,
surrounding whitespace, negative epochs) are outside the modelled range
and map to Option.none, as do the values on which int() raises. -/
def pyToNat : PyVal → Option Nat
  | PyVal.pint (Int.ofNat m) => some m
  | PyVal.pstr s =>
      if s.data.isEmpty then Option.none
      else s.data.foldl (fun acc c =>
        acc.bind (fun n => if c.isDigit then some (n * 10 + (c.toNat - 48)) else Option.none))
        (some 0)
  | _ => Option.none

/-- Embeds GmailWrapper.parse_api_message (gmail_api.py lines 194-204).
The date is datetime.datetime.fromtimestamp(int(internalDate) / 1000):
Python 3 true division keeps the fractional part and datetime stores
microseconds, so the date is modelled as internalDate (milliseconds)
times 1000 microseconds. The pending missing-body entries appended while
parsing the payload are the second component. -/
def parse_api_message (dec : PyVal → Option String) (message : List (String × PyVal)) :
    Option (Message × List MessagePartBodyWithMissingBodyData) :=
  let message_part := get_field message "payload" PyVal.pnone
  let message_id := get_field message "id" PyVal.pnone
  match parse_message_part dec message_part message_id with
  | some partres =>
    match pyToNat (get_field message "internalDate" PyVal.pnone) with
    | some dateMillis =>
        some (Message.mk message_id (get_field message "threadId" PyVal.pnone)
                (dateMillis * 1000) (get_field message "snippet" PyVal.pnone) partres.1,
              partres.2)
    | Option.none => Option.none
  | Option.none => Option.none

/-- Models the comparison header.name == a string literal: true exactly
when the header name is that very string (Python equality between a
non-string value and a string is False). -/
def pyStrEq (v : PyVal) (s : String) : Bool :=
  match v with
  | PyVal.pstr s2 => s2 = s
  | _ => false

/-- Embeds the loop of GmailWrapper._parse_subject_of_message
(gmail_api.py lines 263-267): scan the top-level header list of the
message payload for the first header named exactly "Subject" and return
its value; return None when there is none. Total, so it never raises. -/
def parse_subject_of_message_loop : List Header → PyVal
  | [] => PyVal.pnone
  | h :: rest =>
      if pyStrEq h.name "Subject" then h.value else parse_subject_of_message_loop rest

/-- Embeds GmailWrapper._parse_subject_of_message (gmail_api.py lines
263-267). -/
def parse_subject_of_message (message : Message) : PyVal :=
  parse_subject_of_message_loop message.payload.headers

/-- Embeds GmailWrapper._query_attachment (gmail_api.py lines 256-261):
one attachments.get call against the provider, modelled by the fetch
collaborator; the response blob is returned to the caller. -/
def query_attachment (fetch : PyVal → PyVal → PyVal) (message_id : PyVal)
    (attachment_id : PyVal) : PyVal :=
  fetch message_id attachment_id

/-- Embeds GmailWrapper._query_attachments_for_missing_message_part_body
(gmail_api.py lines 182-192). For each pending entry: when message_id or
attachment_id is falsy the entry is skipped with a logged error;
otherwise one attachment fetch is issued and its return value is
discarded by the source. The first component is the pending list as the
loop leaves it (each entry with its body object), the second component
is the list of fetched attachment responses in order. -/
def query_attachments_for_missing_message_part_body (fetch : PyVal → PyVal → PyVal) :
    List MessagePartBodyWithMissingBodyData →
      List MessagePartBodyWithMissingBodyData × List PyVal
  | [] => ([], [])
  | mpb :: rest =>
    let restres := query_attachments_for_missing_message_part_body fetch rest
    if !truthy mpb.message_id || !truthy mpb.attachment_id then
      (mpb :: restres.1, restres.2)
    else
      (mpb :: restres.1, query_attachment fetch mpb.message_id mpb.attachment_id :: restres.2)

/-- Embeds the body of the per-thread loop of
GmailWrapper.query_threads_with_paging (gmail_api.py lines 170-175):
fetch the thread detail (the threads.get call is the threadGet
collaborator, keyed by the thread summary id), read its messages field,
parse every message via parse_api_message, extract the subject from the
first message, and assemble the Thread object. The thread summary must be
a dict, the messages field must be a truthy list whose entries are dicts,
and there must be a first message (message_objs[0]); Python raises
otherwise, modelled as Option.none. The pending missing-body entries of
all parsed messages are the second component, in message order. -/
def parse_thread_of_summary (dec : PyVal → Option String)
    (threadGet : PyVal → List (String × PyVal)) (thread : PyVal) :
    Option (Thread × List MessagePartBodyWithMissingBodyData) :=
  match thread with
  | PyVal.pdict tentries =>
    let thread_data := threadGet (get_field tentries "id" PyVal.pnone)
    match get_field thread_data "messages" PyVal.pnone with
    | PyVal.plist messages_in_thread =>
      match messages_in_thread.mapM (fun raw_message =>
              match raw_message with
              | PyVal.pdict m => parse_api_message dec m
              | _ => Option.none) with
      | some parsed =>
        match parsed.map Prod.fst with
        | [] => Option.none
        | first_message :: restMessages =>
          some (Thread.mk (get_field thread_data "id" PyVal.pnone)
                  (parse_subject_of_message first_message)
                  (first_message :: restMessages),
                (parsed.map Prod.snd).flatten)
      | Option.none => Option.none
    | _ => Option.none
  | _ => Option.none

/-- Embeds one iteration of the while loop of
GmailWrapper.query_threads_with_paging (gmail_api.py lines 160-176) on
one provider response page. A falsy (empty) response dict skips all
processing. Otherwise response.get("threads", []) is read (a plain dict
get, without the falsy-collapse of _get_field), the request and item
counters are updated, and every thread summary of the page is processed
in order, each incrementing the processed counter and appending one
Thread. The accumulated state is (threads, pending missing bodies,
progress). -/
def process_page (dec : PyVal → Option String) (threadGet : PyVal → List (String × PyVal))
    (st : List Thread × List MessagePartBodyWithMissingBodyData × Progress)
    (response : List (String × PyVal)) :
    Option (List Thread × List MessagePartBodyWithMissingBodyData × Progress) :=
  if response.isEmpty then some st
  else
    match (alookup "threads" response).getD (PyVal.plist []) with
    | PyVal.plist list_of_threads =>
      let progress := (st.2.2.incr_requests).register_new_items list_of_threads.length
      list_of_threads.foldlM (fun acc thread =>
        match parse_thread_of_summary dec threadGet thread with
        | some threadres =>
            some (acc.1 ++ [threadres.1], acc.2.1 ++ threadres.2,
                  acc.2.2.incr_processed_items)
        | Option.none => Option.none)
        (st.1, st.2.1, progress)
    | _ => Option.none

/-- Embeds GmailWrapper.query_threads_with_paging (gmail_api.py lines
151-180). The signature of the source takes only the query; the query and
the HTTP request chain are abstracted into the pages parameter: the
successive response dicts the provider returns while following its page
token (request becomes None after the last page, ending the while loop).
The pending missing-body list is cleared at the start (fresh empty
accumulator); every page is processed in full and there is no item
limit. The subsequent reconciler invocation of line 179 is embedded
separately as query_attachments_for_missing_message_part_body. -/
def query_threads_with_paging (dec : PyVal → Option String)
    (threadGet : PyVal → List (String × PyVal)) (pages : List (List (String × PyVal))) :
    Option (List Thread × List MessagePartBodyWithMissingBodyData × Progress) :=
  pages.foldlM (process_page dec threadGet) ([], [], Progress.init)

/-- Follows the words of the claim for queryThreadsWithPaging, for
comparison with the source function: paging with an advisory item limit,
stopping as soon as the count of collected threads has reached the limit
(the final page is never truncated mid-page, so the limit may be
overshot). -/
def query_threads_with_paging_claim (dec : PyVal → Option String)
    (threadGet : PyVal → List (String × PyVal)) (limit : Nat) :
    List (List (String × PyVal)) →
      (List Thread × List MessagePartBodyWithMissingBodyData × Progress) →
      Option (List Thread × List MessagePartBodyWithMissingBodyData × Progress)
  | [], st => some st
  | page :: rest, st =>
    if limit ≤ st.1.length then some st
    else
      match process_page dec threadGet st page with
      | some st2 => query_threads_with_paging_claim dec threadGet limit rest st2
      | Option.none => Option.none

/-- Models Python str.split with a non-empty literal separator, working on
the character list of a string: split at each non-overlapping occurrence
of the separator, left to right, keeping empty pieces. -/
def pySplitChars (s0 : Char) (srest : List Char) : List Char → List (List Char)
  | [] => [[]]
  | c :: cs =>
    if (s0 :: srest).isPrefixOf (c :: cs) then
      [] :: pySplitChars s0 srest (cs.drop srest.length)
    else
      match pySplitChars s0 srest cs with
      | [] => [[c]]
      | piece :: pieces => (c :: piece) :: pieces
termination_by cs => cs.length
decreasing_by
  · simp only [List.length_cons, List.length_drop]; omega
  · simp only [List.length_cons]; omega

/-- Models Python str.split(sep) for a literal separator. The separator in
the source (DEFAULT_LINE_SEP) is a non-empty literal; str.split raises on
an empty separator, modelled by returning the string unsplit (unreached
for the separator the source uses). -/
def pySplit (s : String) (sep : String) : List String :=
  match sep.data with
  | [] => [s]
  | s0 :: srest => (pySplitChars s0 srest s.data).map String.mk

/-- Models Python str.strip() with no arguments: remove leading and
trailing whitespace. The modelled whitespace set (space, tab, newline,
carriage return) covers the inputs the pipeline sees. -/
def pyStrip (s : String) : String :=
  String.mk (((s.data.dropWhile Char.isWhitespace).reverse.dropWhile Char.isWhitespace).reverse)

/-- Models Python str.startswith with a single string argument. -/
def pyStartsWith (s : String) (pre : String) : Bool :=
  pre.data.isPrefixOf s.data

/-- The literal DEFAULT_LINE_SEP of gmail_playground.py line 22: the Python
source is a doubly-escaped literal, so the separator is the four
characters backslash, r, backslash, n. -/
def DEFAULT_LINE_SEP : String := "\\r\\n"

/-- Models one message as the line-filter stage of gmail_playground.py
sees it: the GmailThreads message objects come from the external
googleapiwrapper collaborator, with identification fields and the list of
body strings that get_all_plain_text_parts() returns (one entry per
plain-text part). The date is modelled as a Nat, ordered like the
datetime values it stands for. -/
structure PlaygroundMessage where
  msg_id : String
  thread_id : String
  subject : String
  date : Nat
  plain_text_parts : List String

/-- Embeds the dataclass MatchedLinesFromMessage
(gmail_playground.py lines 122-128). -/
structure MatchedLinesFromMessage where
  message_id : String
  thread_id : String
  subject : String
  date : Nat
  lines : List String

/-- Embeds GmailPlayground._check_if_line_is_valid (gmail_playground.py
lines 212-219): scan the skip strings in order and report invalid on the
first one the line starts with (the loop breaks there). -/
def check_if_line_is_valid (line : String) : List String → Bool
  | [] => true
  | skip_str :: rest =>
      if pyStartsWith line skip_str then false
      else check_if_line_is_valid line rest

/-- Embeds GmailPlayground.filter_data_by_regex_pattern
(gmail_playground.py lines 174-197). The compiled regex of the external
pythoncommons RegexUtils is the matches_regex parameter. For every
message and for every plain-text part of that message, the part body is
split on the literal line separator; each line is stripped, dropped if it
starts with one of the skip strings, and kept verbatim if the stripped
line matches the regex. One MatchedLinesFromMessage is appended per
(message, part) pair - the append of line 191 is inside the part loop. -/
def filter_data_by_regex_pattern (messages : List PlaygroundMessage)
    (matches_regex : String → Bool) (skip_lines_starting_with : List String)
    (line_sep : String) : List MatchedLinesFromMessage :=
  messages.flatMap (fun message =>
    message.plain_text_parts.map (fun part_body =>
      MatchedLinesFromMessage.mk message.msg_id message.thread_id message.subject message.date
        ((pySplit part_body line_sep).filterMap (fun rawLine =>
          let line := pyStrip rawLine
          if !check_if_line_is_valid line skip_lines_starting_with then Option.none
          else if matches_regex line then some line
          else Option.none))))

/-- Python dict assignment d[k] = v on an association list: replace the
value of an existing key in place (keeping its position, as Python dicts
do) or append a new key at the end. -/
def setKey (k : String) (v : α) : List (String × α) → List (String × α)
  | [] => [(k, v)]
  | (k2, v2) :: rest =>
      if k2 = k then (k2, v) :: rest else (k2, v2) :: setKey k v rest

/-- One iteration of the inner loop of
DataConverter.convert_data_to_aggregated_rows (gmail_playground.py lines
258-266) on one (testcase name, message date) pair: a first occurrence
gets frequency 1 and the message date; a repeated occurrence increments
the frequency and moves the latest-failure date only when the new date is
strictly later. The second dict always holds every key of the first, so
the fallback branch that leaves the latest dict unchanged on a missing
key is unreachable (Python would raise KeyError there). -/
def aggStep (st : List (String × Nat) × List (String × Nat)) (p : String × Nat) :
    List (String × Nat) × List (String × Nat) :=
  match alookup p.1 st.1 with
  | Option.none => (setKey p.1 1 st.1, setKey p.1 p.2 st.2)
  | some n =>
      (setKey p.1 (n + 1) st.1,
       match alookup p.1 st.2 with
       | some d => if d < p.2 then setKey p.1 p.2 st.2 else st.2
       | Option.none => st.2)

/-- Embeds DataConverter.convert_data_to_aggregated_rows
(gmail_playground.py lines 254-273). The two Python dicts
(failure frequency and latest failure) are association lists in
insertion order; the result iterates the frequency dict entries and pairs
each with its latest-failure date (present for every key, so the getD
fallback is unreachable). The str() rendering of the date in the row is
kept as the Nat date value. -/
def aggDicts (raw_data : List MatchedLinesFromMessage) :
    List (String × Nat) × List (String × Nat) :=
  raw_data.foldl (fun st0 matched_lines =>
    matched_lines.lines.foldl (fun st1 testcase_name =>
      aggStep st1 (testcase_name, matched_lines.date)) st0) ([], [])

/-- The final loop of convert_data_to_aggregated_rows (gmail_playground.py
lines 268-273): one output row per entry of the frequency dict, in
insertion order, paired with its latest-failure date. -/
def convert_data_to_aggregated_rows (raw_data : List MatchedLinesFromMessage) :
    List (String × Nat × Nat) :=
  (aggDicts raw_data).1.map
    (fun e => (e.1, e.2, (alookup e.1 (aggDicts raw_data).2).getD 0))

theorem parse_subject_of_message_loop_eq_find (hs : List Header) :
    parse_subject_of_message_loop hs =
      ((hs.find? (fun h => pyStrEq h.name "Subject")).map Header.value).getD PyVal.pnone := by
  induction hs with
  | nil => simp [parse_subject_of_message_loop]
  | cons h rest ih =>
    by_cases hn : pyStrEq h.name "Subject" = true
    · simp [parse_subject_of_message_loop, List.find?, hn]
    · simp only [Bool.not_eq_true] at hn
      simp [parse_subject_of_message_loop, List.find?, hn, ih]

theorem pyStrEq_true_iff (v : PyVal) (s : String) : pyStrEq v s = true ↔ v = PyVal.pstr s := by
  cases v <;> simp [pyStrEq, eq_comm]

/-- C8: subject extraction scans the top-level header list of the message
payload for a header whose name is exactly the string "Subject"
(case-sensitive: the Bool matcher pyStrEq holds exactly on that string
value), returns the value of the first such header, and returns None when
no header matches; the function is total, so it never raises. -/
theorem parse_subject_scans_for_exact_subject_header :
    ∀ (message : Message),
      parse_subject_of_message message =
        ((message.payload.headers.find? (fun h => pyStrEq h.name "Subject")).map
          Header.value).getD PyVal.pnone
      ∧ ((∀ h ∈ message.payload.headers, h.name ≠ PyVal.pstr "Subject") →
          parse_subject_of_message message = PyVal.pnone)
      ∧ (∀ v s, pyStrEq v s = true ↔ v = PyVal.pstr s) := by
  intro message
  refine ⟨parse_subject_of_message_loop_eq_find message.payload.headers, ?_, pyStrEq_true_iff⟩
  intro habs
  unfold parse_subject_of_message
  rw [parse_subject_of_message_loop_eq_find message.payload.headers]
  have hfind : message.payload.headers.find? (fun h => pyStrEq h.name "Subject") = Option.none := by
    rw [List.find?_eq_none]
    intro h hmem
    have := habs h hmem
    cases hn : pyStrEq h.name "Subject"
    · simp
    · exact absurd ((pyStrEq_true_iff h.name "Subject").mp hn) this
  rw [hfind]
  rfl

theorem parse_subject_scans_for_exact_subject_header_witness :
    parse_subject_of_message
        (Message.mk PyVal.pnone PyVal.pnone 0 PyVal.pnone
          (MessagePart.mk PyVal.pnone PyVal.pnone
            [Header.mk (PyVal.pstr "From") (PyVal.pstr "a@b")]
            (MessagePartBody.mk PyVal.pnone PyVal.pnone PyVal.pnone false) [])) =
      PyVal.pnone :=
  (parse_subject_scans_for_exact_subject_header
      (Message.mk PyVal.pnone PyVal.pnone 0 PyVal.pnone
        (MessagePart.mk PyVal.pnone PyVal.pnone
          [Header.mk (PyVal.pstr "From") (PyVal.pstr "a@b")]
          (MessagePartBody.mk PyVal.pnone PyVal.pnone PyVal.pnone false) []))).2.1
    (by
      intro h hmem
      simp only [List.mem_singleton] at hmem
      subst hmem
      simp)

/-- C9: for every record, field name and default, _get_field returns the
stored value exactly when the field is present with a truthy value, and
the default when the field is absent or its value is falsy (empty string,
zero, None, empty containers): the result is the lookup filtered by
truthiness, with the default as fallback. -/
theorem get_field_returns_truthy_value_or_default :
    ∀ (gmail_api_obj : List (String × PyVal)) (fieldName : String) (default_val : PyVal),
      get_field gmail_api_obj fieldName default_val =
        ((alookup fieldName gmail_api_obj).filter truthy).getD default_val := by
  intro obj f d
  unfold get_field
  cases h : alookup f obj with
  | none => simp [Option.filter]
  | some v => by_cases ht : truthy v <;> simp [Option.filter, ht]

/-- C4: resolving the pending missing-body entries never writes the
fetched attachment content back into the originating MessagePartBody:
the pending list (with every body object it references) comes out of the
reconciliation loop unchanged, while the fetches themselves are performed
(one per entry with truthy message and attachment ids, in order) and
their results are returned to no one. -/
theorem reconciler_discards_fetched_content :
    ∀ (fetch : PyVal → PyVal → PyVal) (pending : List MessagePartBodyWithMissingBodyData),
      (query_attachments_for_missing_message_part_body fetch pending).1 = pending ∧
      (query_attachments_for_missing_message_part_body fetch pending).2 =
        pending.filterMap (fun mpb =>
          if truthy mpb.message_id && truthy mpb.attachment_id then
            some (query_attachment fetch mpb.message_id mpb.attachment_id)
          else Option.none) := by
  intro fetch pending
  induction pending with
  | nil => exact ⟨rfl, rfl⟩
  | cons mpb rest ih =>
    by_cases h1 : truthy mpb.message_id = true <;>
      by_cases h2 : truthy mpb.attachment_id = true <;>
        simp [query_attachments_for_missing_message_part_body, h1, h2, ih.1, ih.2]

/-- C5: the body parser never lets a decode failure escape. When the data
field is truthy and the decoder fails (raises), the parser still returns
a body object carrying the original un-decoded data with the
encoding_error flag set; when the decoder succeeds, the decoded string is
stored and the flag is false. -/
theorem parse_body_decode_failure_recovered :
    ∀ (dec : PyVal → Option String) (entries : List (String × PyVal)) (message_id : PyVal),
      (truthy (get_field entries "data" PyVal.pnone) = true →
        dec (get_field entries "data" PyVal.pnone) = Option.none →
        ∃ res, parse_message_part_body_obj dec (PyVal.pdict entries) message_id = some res ∧
          res.1.data = get_field entries "data" PyVal.pnone ∧
          res.1.encoding_error = true) ∧
      (∀ s, truthy (get_field entries "data" PyVal.pnone) = true →
        dec (get_field entries "data" PyVal.pnone) = some s →
        ∃ res, parse_message_part_body_obj dec (PyVal.pdict entries) message_id = some res ∧
          res.1.data = PyVal.pstr s ∧
          res.1.encoding_error = false) := by
  intro dec entries message_id
  constructor
  · intro htr hdec
    refine ⟨_, rfl, ?_⟩
    simp [parse_message_part_body_obj, htr, hdec]
  · intro s htr hdec
    refine ⟨_, rfl, ?_⟩
    simp [parse_message_part_body_obj, htr, hdec]

theorem parse_body_decode_failure_recovered_witness :
    (∃ res, parse_message_part_body_obj
        (fun v => if pyStrEq v "R29vZA" then some "Good" else Option.none)
        (PyVal.pdict [("data", PyVal.pstr "bad64")]) (PyVal.pstr "M") = some res ∧
        res.1.data = get_field [("data", PyVal.pstr "bad64")] "data" PyVal.pnone ∧
        res.1.encoding_error = true) ∧
    (∃ res, parse_message_part_body_obj
        (fun v => if pyStrEq v "R29vZA" then some "Good" else Option.none)
        (PyVal.pdict [("data", PyVal.pstr "R29vZA")]) (PyVal.pstr "M") = some res ∧
        res.1.data = PyVal.pstr "Good" ∧
        res.1.encoding_error = false) :=
  ⟨(parse_body_decode_failure_recovered
        (fun v => if pyStrEq v "R29vZA" then some "Good" else Option.none)
        [("data", PyVal.pstr "bad64")] (PyVal.pstr "M")).1
      (by decide)
      (by decide),
   (parse_body_decode_failure_recovered
        (fun v => if pyStrEq v "R29vZA" then some "Good" else Option.none)
        [("data", PyVal.pstr "R29vZA")] (PyVal.pstr "M")).2 "Good"
      (by decide)
      (by decide)⟩

/-- C10: whenever the parsed body object ends up with a falsy body string,
exactly one pending entry (message id, the attachmentId taken from the
object - None when absent - and the body object itself) is registered,
whether or not an attachment id is present; when the body string is
truthy, nothing is registered. An entry whose attachment id is falsy is
only rejected later: the reconciler issues no fetch for it. -/
theorem parse_body_registers_missing_body :
    ∀ (dec : PyVal → Option String) (entries : List (String × PyVal)) (message_id : PyVal)
      (res : MessagePartBody × List MessagePartBodyWithMissingBodyData),
      parse_message_part_body_obj dec (PyVal.pdict entries) message_id = some res →
      (truthy res.1.data = false →
        res.2 = [MessagePartBodyWithMissingBodyData.mk message_id res.1.attachmentId res.1]) ∧
      (truthy res.1.data = true → res.2 = []) ∧
      (∀ fetch, truthy res.1.attachmentId = false →
        (query_attachments_for_missing_message_part_body fetch res.2).2 = []) := by
  intro dec entries message_id res hres
  simp only [parse_message_part_body_obj, Option.some.injEq] at hres
  subst hres
  refine ⟨?_, ?_, ?_⟩
  · intro hfal
    simp only [hfal]
    rfl
  · intro htr
    simp only [htr]
    rfl
  · intro fetch hatt
    by_cases hd : truthy
        (if truthy (get_field entries "data" PyVal.pnone) then
          match dec (get_field entries "data" PyVal.pnone) with
          | some s => (PyVal.pstr s, false)
          | Option.none => (get_field entries "data" PyVal.pnone, true)
        else (PyVal.pstr "", false)).1 = true
    · simp only [hd]
      rfl
    · simp only [Bool.not_eq_true] at hd
      simp only [hd] at hatt ⊢
      simp [query_attachments_for_missing_message_part_body, hatt]

theorem parse_body_registers_missing_body_witness :
    (truthy (MessagePartBody.mk (PyVal.pstr "") (PyVal.pint 1) PyVal.pnone false).data = false →
      [MessagePartBodyWithMissingBodyData.mk (PyVal.pstr "M") PyVal.pnone
          (MessagePartBody.mk (PyVal.pstr "") (PyVal.pint 1) PyVal.pnone false)] =
        [MessagePartBodyWithMissingBodyData.mk (PyVal.pstr "M")
          (MessagePartBody.mk (PyVal.pstr "") (PyVal.pint 1) PyVal.pnone false).attachmentId
          (MessagePartBody.mk (PyVal.pstr "") (PyVal.pint 1) PyVal.pnone false)]) ∧
    (∀ fetch, truthy (MessagePartBody.mk (PyVal.pstr "") (PyVal.pint 1) PyVal.pnone
        false).attachmentId = false →
      (query_attachments_for_missing_message_part_body fetch
        [MessagePartBodyWithMissingBodyData.mk (PyVal.pstr "M") PyVal.pnone
          (MessagePartBody.mk (PyVal.pstr "") (PyVal.pint 1) PyVal.pnone false)]).2 = []) := by
  have h := parse_body_registers_missing_body (fun _ => Option.none)
    [("size", PyVal.pint 1)] (PyVal.pstr "M")
    (MessagePartBody.mk (PyVal.pstr "") (PyVal.pint 1) PyVal.pnone false,
      [MessagePartBodyWithMissingBodyData.mk (PyVal.pstr "M") PyVal.pnone
        (MessagePartBody.mk (PyVal.pstr "") (PyVal.pint 1) PyVal.pnone false)])
    (by simp [parse_message_part_body_obj, get_field, alookup, truthy])
  exact ⟨h.1, h.2.2⟩

/-- C3 counterexample: a message with no plain-text parts produces no
MatchedLinesFromMessage at all, refuting "exactly one per source
message": one input message, zero output records. -/
theorem filter_zero_records_for_partless_message :
    (filter_data_by_regex_pattern [PlaygroundMessage.mk "m1" "t1" "s" 0 []]
        (fun _ => true) [] DEFAULT_LINE_SEP).length = 0 ∧
    ([PlaygroundMessage.mk "m1" "t1" "s" 0 []] : List PlaygroundMessage).length = 1 :=
  ⟨rfl, rfl⟩

/-- C3 amended: the line-filter stage produces exactly one
MatchedLinesFromMessage per plain-text part of each source message (one
record per (message, part) pair, even when the matched-line
list is empty); a message with no plain-text parts contributes no
record. -/
theorem filter_one_record_per_plain_text_part :
    ∀ (messages : List PlaygroundMessage) (matches_regex : String → Bool)
      (skip_lines_starting_with : List String) (line_sep : String),
      (filter_data_by_regex_pattern messages matches_regex skip_lines_starting_with
          line_sep).length =
        (messages.map (fun m => m.plain_text_parts.length)).sum := by
  intro messages f skips sep
  unfold filter_data_by_regex_pattern
  rw [List.length_flatMap]
  simp [Function.comp_def]

theorem filterMap_strip_guard_eq_filter_map (l : List String) (valid f : String → Bool) :
    l.filterMap (fun rawLine =>
      let line := pyStrip rawLine
      if !valid line then Option.none
      else if f line then some line else Option.none) =
    (l.map pyStrip).filter (fun t => valid t && f t) := by
  induction l with
  | nil => rfl
  | cons a l2 ih =>
    simp only [List.filterMap_cons, List.map_cons, List.filter_cons]
    rw [ih]
    by_cases hv : valid (pyStrip a) = true
    · by_cases hf : f (pyStrip a) = true
      · simp [hv, hf]
      · simp [hv, hf]
    · simp only [Bool.not_eq_true] at hv
      simp [hv]

/-- The concrete input body of the line-filter example: the four example
lines joined by the literal line separator. -/
def c7_example_body : String :=
  "Failed testcases:" ++ DEFAULT_LINE_SEP ++ "  org.apache.hadoop.Foo " ++ DEFAULT_LINE_SEP ++
    "FILTER: bar" ++ DEFAULT_LINE_SEP ++ "org.apache.hadoop.Baz"

/-- Models the example regex of the claim: a pattern of the shape
dot-star literal dot-star matches a line exactly when the line contains
the literal, so the matcher is substring containment. -/
def containsSubstring (needle : String) (s : String) : Bool :=
  match needle.data with
  | [] => true
  | n0 :: nrest => (pySplitChars n0 nrest s.data).length > 1

/-- C7: for every plain-text part body, the kept lines are exactly the
stripped lines of the body (split on the literal separator) that pass the
skip-prefix check and match the regex, verbatim and in original order;
and on the concrete example input with skip strings "Failed testcases:"
and "FILTER:" and the contains-org.apache.hadoop regex, the output lines
are exactly org.apache.hadoop.Foo and org.apache.hadoop.Baz. -/
theorem filter_keeps_trimmed_matching_lines :
    (∀ (messages : List PlaygroundMessage) (matches_regex : String → Bool)
        (skip_lines_starting_with : List String) (line_sep : String),
      filter_data_by_regex_pattern messages matches_regex skip_lines_starting_with line_sep =
        messages.flatMap (fun m =>
          m.plain_text_parts.map (fun body =>
            MatchedLinesFromMessage.mk m.msg_id m.thread_id m.subject m.date
              (((pySplit body line_sep).map pyStrip).filter
                (fun t => check_if_line_is_valid t skip_lines_starting_with &&
                  matches_regex t))))) ∧
    (filter_data_by_regex_pattern
        [PlaygroundMessage.mk "m1" "t1" "subj" 5 [c7_example_body]]
        (containsSubstring "org.apache.hadoop") ["Failed testcases:", "FILTER:"]
        DEFAULT_LINE_SEP).map MatchedLinesFromMessage.lines =
      [["org.apache.hadoop.Foo", "org.apache.hadoop.Baz"]] := by
  constructor
  · intro messages f skips sep
    unfold filter_data_by_regex_pattern
    congr 1
    funext m
    congr 1
    funext body
    congr 1
    exact filterMap_strip_guard_eq_filter_map (pySplit body sep)
      (fun t => check_if_line_is_valid t skips) f
  · simp [filter_data_by_regex_pattern, pySplit, pySplitChars, List.isPrefixOf,
      c7_example_body, DEFAULT_LINE_SEP, pyStrip, check_if_line_is_valid, pyStartsWith,
      containsSubstring]

/-- The date value the claim asserts, in microseconds: rawEpochMillis
divided by 1000 with precision below one second discarded by truncation.
Follows the words of the claim, for comparison with the source value. -/
def claimed_truncated_date_micros (rawEpochMillis : Nat) : Nat :=
  rawEpochMillis / 1000 * 1000000

/-- C1 counterexample: on a raw message whose internalDate is 1500
milliseconds, parse_api_message produces a date of 1500000 microseconds
(1.5 seconds): the 500 ms below one second are kept, not discarded, so
the date differs from the truncated value the claim asserts (1000000). -/
theorem parse_api_message_date_not_truncated :
    parse_api_message (fun _ => Option.none)
        [("internalDate", PyVal.pint 1500),
         ("payload", PyVal.pdict [("headers", PyVal.plist [PyVal.pdict []]),
            ("body", PyVal.pdict [("size", PyVal.pint 1)])])] =
      some (Message.mk PyVal.pnone PyVal.pnone 1500000 PyVal.pnone
          (MessagePart.mk PyVal.pnone PyVal.pnone [Header.mk PyVal.pnone PyVal.pnone]
            (MessagePartBody.mk (PyVal.pstr "") (PyVal.pint 1) PyVal.pnone false) []),
        [MessagePartBodyWithMissingBodyData.mk PyVal.pnone PyVal.pnone
          (MessagePartBody.mk (PyVal.pstr "") (PyVal.pint 1) PyVal.pnone false)]) ∧
    claimed_truncated_date_micros 1500 = 1000000 ∧
    (1500000 : Nat) ≠ claimed_truncated_date_micros 1500 := by
  refine ⟨?_, rfl, by decide⟩
  simp [parse_api_message, parse_message_part, parse_message_part_list, parse_headers,
    parse_message_part_body_obj, get_field, alookup, truthy, pyToNat, List.mapM, List.mapM.loop]

/-- C1 amended: for every raw message whose internalDate field holds a
millisecond epoch integer, parse_api_message sets the date to
internalDate / 1000 seconds with the sub-second part preserved (Python 3
true division; datetime keeps microseconds): the date in microseconds is
internalDate * 1000, its whole-second part is internalDate / 1000 and its
sub-second remainder is the internalDate % 1000 milliseconds - nothing is
truncated away. -/
theorem parse_api_message_date_preserves_subseconds :
    ∀ (dec : PyVal → Option String) (message : List (String × PyVal)) (ms : Nat)
      (res : Message × List MessagePartBodyWithMissingBodyData),
      get_field message "internalDate" PyVal.pnone = PyVal.pint (Int.ofNat ms) →
      parse_api_message dec message = some res →
      res.1.date = ms * 1000 ∧
      res.1.date / 1000000 = ms / 1000 ∧
      res.1.date % 1000000 = ms % 1000 * 1000 := by
  intro dec message ms res hdate hres
  unfold parse_api_message at hres
  simp only [hdate, pyToNat] at hres
  cases hp : parse_message_part dec (get_field message "payload" PyVal.pnone)
      (get_field message "id" PyVal.pnone) with
  | none =>
    rw [hp] at hres
    exact absurd hres (by simp)
  | some partres =>
    rw [hp] at hres
    simp only [Option.some.injEq] at hres
    subst hres
    refine ⟨rfl, ?_, ?_⟩
    · show ms * 1000 / 1000000 = ms / 1000
      omega
    · show ms * 1000 % 1000000 = ms % 1000 * 1000
      omega

theorem parse_api_message_date_preserves_subseconds_witness :
    (Message.mk PyVal.pnone PyVal.pnone 1499000 PyVal.pnone
        (MessagePart.mk PyVal.pnone PyVal.pnone [Header.mk PyVal.pnone PyVal.pnone]
          (MessagePartBody.mk (PyVal.pstr "") (PyVal.pint 1) PyVal.pnone false) []),
      [MessagePartBodyWithMissingBodyData.mk PyVal.pnone PyVal.pnone
        (MessagePartBody.mk (PyVal.pstr "") (PyVal.pint 1) PyVal.pnone false)]).1.date =
        1499 * 1000 ∧
    (1499000 : Nat) / 1000000 = 1499 / 1000 ∧
    (1499000 : Nat) % 1000000 = 1499 % 1000 * 1000 :=
  parse_api_message_date_preserves_subseconds (fun _ => Option.none)
    [("internalDate", PyVal.pint 1499),
     ("payload", PyVal.pdict [("headers", PyVal.plist [PyVal.pdict []]),
        ("body", PyVal.pdict [("size", PyVal.pint 1)])])] 1499
    (Message.mk PyVal.pnone PyVal.pnone 1499000 PyVal.pnone
        (MessagePart.mk PyVal.pnone PyVal.pnone [Header.mk PyVal.pnone PyVal.pnone]
          (MessagePartBody.mk (PyVal.pstr "") (PyVal.pint 1) PyVal.pnone false) []),
      [MessagePartBodyWithMissingBodyData.mk PyVal.pnone PyVal.pnone
        (MessagePartBody.mk (PyVal.pstr "") (PyVal.pint 1) PyVal.pnone false)])
    rfl
    (by simp [parse_api_message, parse_message_part, parse_message_part_list, parse_headers,
      parse_message_part_body_obj, get_field, alookup, truthy, pyToNat, List.mapM,
      List.mapM.loop])

def c2_dec : PyVal → Option String := fun _ => some "body"

def c2_threadGet : PyVal → List (String × PyVal) := fun _ =>
  [("id", PyVal.pstr "T"),
   ("messages", PyVal.plist [PyVal.pdict
      [("internalDate", PyVal.pint 1000),
       ("payload", PyVal.pdict
          [("headers", PyVal.plist [PyVal.pdict []]),
           ("body", PyVal.pdict [("data", PyVal.pstr "QQ")])])]])]

def c2_page : List (String × PyVal) :=
  [("threads", PyVal.plist [PyVal.pdict [("id", PyVal.pstr "t1")]])]

def c2_message : Message :=
  Message.mk PyVal.pnone PyVal.pnone 1000000 PyVal.pnone
    (MessagePart.mk PyVal.pnone PyVal.pnone [Header.mk PyVal.pnone PyVal.pnone]
      (MessagePartBody.mk (PyVal.pstr "body") PyVal.pnone PyVal.pnone false) [])

def c2_thread : Thread := Thread.mk (PyVal.pstr "T") PyVal.pnone [c2_message]

/-- C2 counterexample: the source function has no limit parameter and
never stops at an item limit. On two provider pages of one thread each,
the source consumes both pages and returns 2 threads, while paging that
honours an advisory limit of 1 (the behaviour the claim asserts, modelled
by query_threads_with_paging_claim) stops after the first page with 1
thread; 2 and 1 differ. -/
theorem query_threads_with_paging_ignores_limit :
    (query_threads_with_paging c2_dec c2_threadGet [c2_page, c2_page]).map
        (fun r => r.1.length) = some 2 ∧
    (query_threads_with_paging_claim c2_dec c2_threadGet 1 [c2_page, c2_page]
        ([], [], Progress.init)).map (fun r => r.1.length) = some 1 ∧
    (some 2 : Option Nat) ≠ some 1 := by
  refine ⟨?_, ?_, by decide⟩ <;>
    simp [query_threads_with_paging, query_threads_with_paging_claim, process_page,
      parse_thread_of_summary, parse_api_message, parse_message_part, parse_message_part_list,
      parse_headers, parse_message_part_body_obj, get_field, alookup, truthy, pyToNat,
      List.mapM, List.mapM.loop, List.foldlM, parse_subject_of_message,
      parse_subject_of_message_loop, pyStrEq, Progress.init, Progress.incr_requests,
      Progress.register_new_items, Progress.incr_processed_items,
      c2_dec, c2_threadGet, c2_page, c2_message, c2_thread]

/-- The number of thread summaries a response page carries:
response.get("threads", []), counted when it is a list. -/
def pageThreadCount (response : List (String × PyVal)) : Nat :=
  match (alookup "threads" response).getD (PyVal.plist []) with
  | PyVal.plist ts => ts.length
  | _ => 0

theorem process_page_inner_foldlM_len (dec : PyVal → Option String)
    (threadGet : PyVal → List (String × PyVal)) :
    ∀ (lot : List PyVal) (acc r : List Thread × List MessagePartBodyWithMissingBodyData × Progress),
      lot.foldlM (fun acc thread =>
        match parse_thread_of_summary dec threadGet thread with
        | some threadres =>
            some (acc.1 ++ [threadres.1], acc.2.1 ++ threadres.2,
                  acc.2.2.incr_processed_items)
        | Option.none => Option.none) acc = some r →
      r.1.length = acc.1.length + lot.length ∧
      r.2.2.requests_count = acc.2.2.requests_count := by
  intro lot
  induction lot with
  | nil =>
    intro acc r h
    simp only [List.foldlM_nil, Option.pure_def, Option.some.injEq] at h
    subst h
    exact ⟨rfl, rfl⟩
  | cons t rest ih =>
    intro acc r h
    rw [List.foldlM_cons] at h
    cases hp : parse_thread_of_summary dec threadGet t with
    | none => rw [hp] at h; exact absurd h (by simp)
    | some threadres =>
      rw [hp] at h
      simp only [Option.bind_eq_bind, Option.some_bind] at h
      have := ih _ _ h
      simp only [List.length_append, List.length_singleton] at this
      constructor
      · rw [this.1, List.length_cons]
        omega
      · exact this.2

theorem query_paging_foldlM_len (dec : PyVal → Option String)
    (threadGet : PyVal → List (String × PyVal)) :
    ∀ (pages : List (List (String × PyVal)))
      (st r : List Thread × List MessagePartBodyWithMissingBodyData × Progress),
      pages.foldlM (process_page dec threadGet) st = some r →
      r.1.length = st.1.length +
        ((pages.filter (fun p => !p.isEmpty)).map pageThreadCount).sum ∧
      r.2.2.requests_count = st.2.2.requests_count +
        (pages.filter (fun p => !p.isEmpty)).length := by
  intro pages
  induction pages with
  | nil =>
    intro st r h
    simp only [List.foldlM_nil, Option.pure_def, Option.some.injEq] at h
    subst h
    exact ⟨rfl, rfl⟩
  | cons page rest ih =>
    intro st r h
    rw [List.foldlM_cons] at h
    by_cases hemp : page.isEmpty = true
    · rw [show process_page dec threadGet st page = some st by
          simp [process_page, hemp]] at h
      simp only [Option.bind_eq_bind, Option.some_bind] at h
      have := ih _ _ h
      simpa [List.filter_cons, hemp] using this
    · simp only [Bool.not_eq_true] at hemp
      cases hpp : process_page dec threadGet st page with
      | none => rw [hpp] at h; exact absurd h (by simp)
      | some st2 =>
        rw [hpp] at h
        simp only [Option.bind_eq_bind, Option.some_bind] at h
        have hrest := ih _ _ h
        unfold process_page at hpp
        rw [if_neg (by simp [hemp])] at hpp
        cases hts : (alookup "threads" page).getD (PyVal.plist []) with
        | plist lot =>
          rw [hts] at hpp
          have hinner := process_page_inner_foldlM_len dec threadGet lot _ _ hpp
          have hcount : pageThreadCount page = lot.length := by
            unfold pageThreadCount
            rw [hts]
          constructor
          · rw [hrest.1, hinner.1]
            simp [List.filter_cons, hemp, hcount]
            omega
          · rw [hrest.2, hinner.2]
            simp only [Progress.register_new_items, Progress.incr_requests]
            simp [List.filter_cons, hemp]
            omega
        | pnone => rw [hts] at hpp; exact absurd hpp (by simp)
        | pstr s => rw [hts] at hpp; exact absurd hpp (by simp)
        | pint n => rw [hts] at hpp; exact absurd hpp (by simp)
        | pdict es => rw [hts] at hpp; exact absurd hpp (by simp)

/-- C2 amended: query_threads_with_paging takes only a query (there is no
limit parameter in the source signature); it follows the provider page
chain until no page remains and consumes every page in full: on success
the returned thread count is the total thread count of all truthy pages,
and one list request is counted per truthy page. (The limit the caller
passes in gmail_playground.py goes to a different, external GmailWrapper
class, not to this function.) -/
theorem query_threads_with_paging_consumes_all_pages :
    ∀ (dec : PyVal → Option String) (threadGet : PyVal → List (String × PyVal))
      (pages : List (List (String × PyVal)))
      (res : List Thread × List MessagePartBodyWithMissingBodyData × Progress),
      query_threads_with_paging dec threadGet pages = some res →
      res.1.length = ((pages.filter (fun p => !p.isEmpty)).map pageThreadCount).sum ∧
      res.2.2.requests_count = (pages.filter (fun p => !p.isEmpty)).length := by
  intro dec threadGet pages res h
  have := query_paging_foldlM_len dec threadGet pages ([], [], Progress.init) res h
  simpa [Progress.init] using this

theorem query_threads_with_paging_consumes_all_pages_witness :
    (([c2_thread, c2_thread], [], Progress.mk 2 2 2 1) :
        List Thread × List MessagePartBodyWithMissingBodyData × Progress).1.length =
      ((([c2_page, c2_page].filter (fun p => !p.isEmpty)).map pageThreadCount).sum) ∧
    (([c2_thread, c2_thread], [], Progress.mk 2 2 2 1) :
        List Thread × List MessagePartBodyWithMissingBodyData × Progress).2.2.requests_count =
      ([c2_page, c2_page].filter (fun p => !p.isEmpty)).length :=
  query_threads_with_paging_consumes_all_pages c2_dec c2_threadGet [c2_page, c2_page]
    ([c2_thread, c2_thread], [], Progress.mk 2 2 2 1)
    (by simp [query_threads_with_paging, process_page, parse_thread_of_summary,
      parse_api_message, parse_message_part, parse_message_part_list, parse_headers,
      parse_message_part_body_obj, get_field, alookup, truthy, pyToNat, List.mapM,
      List.mapM.loop, List.foldlM, parse_subject_of_message, parse_subject_of_message_loop,
      pyStrEq, Progress.init, Progress.incr_requests, Progress.register_new_items,
      Progress.incr_processed_items, c2_dec, c2_threadGet, c2_page, c2_message, c2_thread])

/-- All (matched line, message date) pairs of the raw data, in the order
the two nested loops of the aggregation visit them. -/
def linePairs (raw_data : List MatchedLinesFromMessage) : List (String × Nat) :=
  raw_data.flatMap (fun ml => ml.lines.map (fun l => (l, ml.date)))

/-- Number of occurrences of a matched line among the pairs. -/
def countKey (k : String) (ps : List (String × Nat)) : Nat :=
  (ps.filter (fun p => p.1 = k)).length

/-- Latest date attached to a matched line among the pairs (0 when the
line does not occur). -/
def maxVal (k : String) (ps : List (String × Nat)) : Nat :=
  ((ps.filter (fun p => p.1 = k)).map Prod.snd).foldl Nat.max 0

def keysOf (l : List (String × α)) : List String := l.map Prod.fst

theorem alookup_setKey_self (k : String) (v : α) (l : List (String × α)) :
    alookup k (setKey k v l) = some v := by
  induction l with
  | nil => simp [setKey, alookup]
  | cons e rest ih =>
    obtain ⟨k2, v2⟩ := e
    by_cases h : k2 = k <;> simp [setKey, alookup, h, ih]

theorem alookup_setKey_ne (k kq : String) (v : α) (l : List (String × α)) (h : kq ≠ k) :
    alookup kq (setKey k v l) = alookup kq l := by
  have hkkq : ¬ (k = kq) := fun he => h he.symm
  induction l with
  | nil => simp [setKey, alookup, hkkq]
  | cons e rest ih =>
    obtain ⟨k2, v2⟩ := e
    by_cases h2 : k2 = k
    · have hne : ¬ (k2 = kq) := fun he => h (he.symm.trans h2)
      simp [setKey, alookup, h2, hne, hkkq]
    · simp [setKey, alookup, h2, ih]

theorem mem_keysOf_setKey {k kq : String} {v : α} {l : List (String × α)}
    (h : kq ∈ keysOf (setKey k v l)) : kq ∈ keysOf l ∨ kq = k := by
  induction l with
  | nil =>
    simp only [setKey, keysOf, List.map_cons, List.map_nil, List.mem_singleton] at h
    exact Or.inr h
  | cons e rest ih =>
    obtain ⟨k2, v2⟩ := e
    by_cases h2 : k2 = k
    · simp only [setKey] at h
      rw [if_pos h2] at h
      exact Or.inl (by simpa [keysOf] using h)
    · simp only [setKey] at h
      rw [if_neg h2] at h
      simp only [keysOf, List.map_cons, List.mem_cons] at h
      rcases h with h | h
      · exact Or.inl (by simp [keysOf, h])
      · rcases ih (show kq ∈ keysOf (setKey k v rest) from h) with h3 | h3
        · refine Or.inl ?_
          simp only [keysOf, List.map_cons, List.mem_cons]
          exact Or.inr (by simpa [keysOf] using h3)
        · exact Or.inr h3

theorem keysOf_nodup_setKey {k : String} {v : α} {l : List (String × α)}
    (h : (keysOf l).Nodup) : (keysOf (setKey k v l)).Nodup := by
  induction l with
  | nil => simp [setKey, keysOf]
  | cons e rest ih =>
    obtain ⟨k2, v2⟩ := e
    simp only [keysOf, List.map_cons, List.nodup_cons] at h
    by_cases h2 : k2 = k
    · simp only [setKey]
      rw [if_pos h2]
      simp only [keysOf, List.map_cons, List.nodup_cons]
      exact ⟨h.1, h.2⟩
    · simp only [setKey]
      rw [if_neg h2]
      simp only [keysOf, List.map_cons, List.nodup_cons]
      refine ⟨?_, ih h.2⟩
      intro hmem
      rcases mem_keysOf_setKey (show k2 ∈ keysOf (setKey k v rest) from hmem) with h3 | h3
      · exact h.1 (by simpa [keysOf] using h3)
      · exact h2 h3

theorem countKey_append_single (k : String) (ps : List (String × Nat)) (p : String × Nat) :
    countKey k (ps ++ [p]) = countKey k ps + (if p.1 = k then 1 else 0) := by
  unfold countKey
  rw [List.filter_append, List.length_append]
  by_cases h : p.1 = k <;> simp [List.filter, h]

theorem maxVal_append_single (k : String) (ps : List (String × Nat)) (p : String × Nat) :
    maxVal k (ps ++ [p]) = if p.1 = k then Nat.max (maxVal k ps) p.2 else maxVal k ps := by
  unfold maxVal
  rw [List.filter_append]
  by_cases h : p.1 = k <;> simp [List.filter, h]

theorem maxVal_eq_zero_of_countKey_zero {k : String} {ps : List (String × Nat)}
    (h : countKey k ps = 0) : maxVal k ps = 0 := by
  unfold countKey at h
  unfold maxVal
  rw [List.length_eq_zero] at h
  rw [h]
  rfl

/-- The frequency dict agrees with the occurrence counts of the pairs
seen so far (a key is present exactly when its count is positive). -/
def freqInv (seen freq : List (String × Nat)) : Prop :=
  ∀ k, alookup k freq =
    if countKey k seen = 0 then Option.none else some (countKey k seen)

/-- The latest-failure dict agrees with the maximal date of the pairs
seen so far (a key is present exactly when it occurs). -/
def latestInv (seen latest : List (String × Nat)) : Prop :=
  ∀ k, alookup k latest =
    if countKey k seen = 0 then Option.none else some (maxVal k seen)

theorem aggStep_fst (st : List (String × Nat) × List (String × Nat)) (p : String × Nat) :
    (aggStep st p).1 = setKey p.1 ((alookup p.1 st.1).getD 0 + 1) st.1 ∨
    (aggStep st p).1 = setKey p.1 1 st.1 := by
  unfold aggStep
  cases alookup p.1 st.1 <;> simp

theorem aggStep_fst_nodup (st : List (String × Nat) × List (String × Nat)) (p : String × Nat)
    (h : (keysOf st.1).Nodup) : (keysOf (aggStep st p).1).Nodup := by
  rcases aggStep_fst st p with h2 | h2 <;> rw [h2] <;> exact keysOf_nodup_setKey h

theorem aggStep_inv (seen freq latest : List (String × Nat)) (p : String × Nat)
    (hf : freqInv seen freq) (hl : latestInv seen latest) :
    freqInv (seen ++ [p]) (aggStep (freq, latest) p).1 ∧
    latestInv (seen ++ [p]) (aggStep (freq, latest) p).2 := by
  cases hn : alookup p.1 freq with
  | none =>
    have hc0 : countKey p.1 seen = 0 := by
      have := hf p.1
      rw [hn] at this
      by_contra hc
      rw [if_neg hc] at this
      exact Option.noConfusion this
    constructor
    · intro k
      by_cases hk : k = p.1
      · subst hk
        simp only [aggStep, hn]
        rw [alookup_setKey_self, countKey_append_single, hc0, if_pos rfl]
        simp
      · simp only [aggStep, hn]
        rw [alookup_setKey_ne _ _ _ _ hk, countKey_append_single, if_neg (Ne.symm hk)]
        simpa using hf k
    · intro k
      by_cases hk : k = p.1
      · subst hk
        simp only [aggStep, hn]
        rw [alookup_setKey_self, countKey_append_single, hc0, if_pos rfl,
          maxVal_append_single, if_pos rfl, maxVal_eq_zero_of_countKey_zero hc0]
        simp
      · simp only [aggStep, hn]
        rw [alookup_setKey_ne _ _ _ _ hk, countKey_append_single, if_neg (Ne.symm hk),
          maxVal_append_single, if_neg (Ne.symm hk)]
        simpa using hl k
  | some n =>
    have hcpos : ¬ countKey p.1 seen = 0 := by
      intro hc
      have := hf p.1
      rw [hn, if_pos hc] at this
      exact Option.noConfusion this
    have hneq : n = countKey p.1 seen := by
      have := hf p.1
      rw [hn, if_neg hcpos] at this
      exact Option.some.inj this
    have hlat : alookup p.1 latest = some (maxVal p.1 seen) := by
      have := hl p.1
      rwa [if_neg hcpos] at this
    constructor
    · intro k
      by_cases hk : k = p.1
      · subst hk
        simp only [aggStep, hn]
        rw [alookup_setKey_self, countKey_append_single, if_pos rfl, hneq,
          if_neg (show ¬ (countKey p.1 seen + 1 = 0) by omega)]
      · simp only [aggStep, hn]
        rw [alookup_setKey_ne _ _ _ _ hk, countKey_append_single, if_neg (Ne.symm hk)]
        simpa using hf k
    · intro k
      simp only [aggStep, hn, hlat]
      by_cases hk : k = p.1
      · subst hk
        by_cases hd : maxVal p.1 seen < p.2
        · rw [if_pos hd, alookup_setKey_self, countKey_append_single, if_pos rfl,
            if_neg (show ¬ (countKey p.1 seen + 1 = 0) by omega),
            maxVal_append_single, if_pos rfl,
            show Nat.max (maxVal p.1 seen) p.2 = p.2 from Nat.max_eq_right (Nat.le_of_lt hd)]
        · rw [if_neg hd, hlat, countKey_append_single, if_pos rfl,
            if_neg (show ¬ (countKey p.1 seen + 1 = 0) by omega),
            maxVal_append_single, if_pos rfl,
            show Nat.max (maxVal p.1 seen) p.2 = maxVal p.1 seen from
              Nat.max_eq_left (Nat.le_of_not_lt hd)]
      · by_cases hd : maxVal p.1 seen < p.2
        · rw [if_pos hd, alookup_setKey_ne _ _ _ _ hk, countKey_append_single,
            if_neg (Ne.symm hk), maxVal_append_single, if_neg (Ne.symm hk)]
          simpa using hl k
        · rw [if_neg hd, countKey_append_single, if_neg (Ne.symm hk),
            maxVal_append_single, if_neg (Ne.symm hk)]
          simpa using hl k

theorem aggFold_inv :
    ∀ (ps seen freq latest : List (String × Nat)),
      freqInv seen freq → latestInv seen latest → (keysOf freq).Nodup →
      freqInv (seen ++ ps) (ps.foldl aggStep (freq, latest)).1 ∧
      latestInv (seen ++ ps) (ps.foldl aggStep (freq, latest)).2 ∧
      (keysOf (ps.foldl aggStep (freq, latest)).1).Nodup := by
  intro ps
  induction ps with
  | nil =>
    intro seen freq latest hf hl hnd
    simpa using ⟨hf, hl, hnd⟩
  | cons p rest ih =>
    intro seen freq latest hf hl hnd
    have hstep := aggStep_inv seen freq latest p hf hl
    have hnd2 := aggStep_fst_nodup (freq, latest) p hnd
    have hrec := ih (seen ++ [p]) (aggStep (freq, latest) p).1 (aggStep (freq, latest) p).2
      hstep.1 hstep.2 hnd2
    simpa [List.foldl_cons, List.append_assoc] using hrec

theorem agg_nested_foldl_eq (raw_data : List MatchedLinesFromMessage) :
    ∀ st, raw_data.foldl (fun st0 ml =>
        ml.lines.foldl (fun st1 l => aggStep st1 (l, ml.date)) st0) st =
      (linePairs raw_data).foldl aggStep st := by
  induction raw_data with
  | nil => intro st; rfl
  | cons ml rest ih =>
    intro st
    simp only [List.foldl_cons]
    rw [ih]
    unfold linePairs
    rw [List.flatMap_cons, List.foldl_append, List.foldl_map]

theorem aggDicts_eq_pairs_foldl (raw_data : List MatchedLinesFromMessage) :
    aggDicts raw_data = (linePairs raw_data).foldl aggStep ([], []) :=
  agg_nested_foldl_eq raw_data ([], [])

theorem find?_row_map (l : List (String × Nat)) (g : String → Nat) (k : String) :
    (l.map (fun e => (e.1, e.2, g e.1))).find? (fun row => row.1 = k) =
      (l.find? (fun e => e.1 = k)).map (fun e => (e.1, e.2, g e.1)) := by
  induction l with
  | nil => rfl
  | cons e rest ih =>
    by_cases h : e.1 = k <;> simp [List.find?, h, ih]

theorem find?_of_alookup_some {k : String} {l : List (String × α)} {v : α}
    (h : alookup k l = some v) : l.find? (fun e => e.1 = k) = some (k, v) := by
  induction l with
  | nil => simp [alookup] at h
  | cons e rest ih =>
    obtain ⟨k2, v2⟩ := e
    by_cases hk : k2 = k
    · subst hk
      simp [alookup] at h
      subst h
      simp [List.find?]
    · simp only [alookup, if_neg hk] at h
      simp [List.find?, hk, ih h]

theorem find?_of_alookup_none {k : String} {l : List (String × α)}
    (h : alookup k l = Option.none) : l.find? (fun e => e.1 = k) = Option.none := by
  induction l with
  | nil => rfl
  | cons e rest ih =>
    obtain ⟨k2, v2⟩ := e
    by_cases hk : k2 = k
    · subst hk
      simp [alookup] at h
    · simp only [alookup, if_neg hk] at h
      simp [List.find?, hk, ih h]

/-- C6: the aggregation pass groups matched lines across all messages by
their literal text: for every raw data list and every line text, the
produced row list contains (searched by key) exactly one row for each
occurring line, whose frequency is the total occurrence count and whose
date is the maximal (most recent) message date of that line - the stored
date moves only when a strictly later one arrives, which over Nat dates
is exactly the maximum; keys are pairwise distinct; and on the concrete
example (two matched lines Foo dated 20230101 and 20230105) the result is
the single row (Foo, 2, 20230105). -/
theorem convert_data_groups_lines_with_count_and_latest_date :
    (∀ (raw_data : List MatchedLinesFromMessage) (k : String),
      ((convert_data_to_aggregated_rows raw_data).find? (fun row => row.1 = k)) =
        (if countKey k (linePairs raw_data) = 0 then Option.none
         else some (k, countKey k (linePairs raw_data), maxVal k (linePairs raw_data))) ∧
      ((convert_data_to_aggregated_rows raw_data).map (fun row => row.1)).Nodup) ∧
    convert_data_to_aggregated_rows
        [MatchedLinesFromMessage.mk "m1" "t1" "s" 20230101 ["Foo"],
         MatchedLinesFromMessage.mk "m2" "t1" "s" 20230105 ["Foo"]] =
      [("Foo", 2, 20230105)] := by
  constructor
  · intro raw_data k
    have hbase_f : freqInv [] [] := by
      intro k2
      simp [alookup, countKey]
    have hbase_l : latestInv [] [] := by
      intro k2
      simp [alookup, countKey]
    have hbase_n : (keysOf ([] : List (String × Nat))).Nodup := by simp [keysOf]
    have hinv := aggFold_inv (linePairs raw_data) [] [] [] hbase_f hbase_l hbase_n
    simp only [List.nil_append] at hinv
    unfold convert_data_to_aggregated_rows
    rw [aggDicts_eq_pairs_foldl raw_data]
    constructor
    · rw [find?_row_map ((List.foldl aggStep ([], []) (linePairs raw_data)).1)
        (fun key =>
          (alookup key (List.foldl aggStep ([], []) (linePairs raw_data)).2).getD 0) k]
      by_cases hc : countKey k (linePairs raw_data) = 0
      · have := hinv.1 k
        rw [if_pos hc] at this
        rw [find?_of_alookup_none this, if_pos hc]
        rfl
      · have hfk := hinv.1 k
        rw [if_neg hc] at hfk
        have hlk := hinv.2.1 k
        rw [if_neg hc] at hlk
        rw [find?_of_alookup_some hfk, if_neg hc]
        simp [hlk]
    · have := hinv.2.2
      simpa [keysOf, List.map_map, Function.comp_def] using this
  · rfl
